import Mathlib

/-!
Shallow embedding of the batch record merge engine of this repository:
`src/batch_user_updater_practice/user_updater.py` and
`src/contract_expiry_practice/contract_updater.py`.

Python dictionaries are modelled as insertion-ordered association lists
(`Dict`), JSON values as `Value`, and Python exceptions as `Except PyErr`.
The nondeterministic input `datetime.now().date()` is made an explicit
`today : Date` parameter.
-/

namespace BatchMerge

/-- Model of a JSON value stored in a record field. -/
inductive Value where
  | str (s : String)
  | num (n : Int)
  | boolean (b : Bool)
  | null
deriving DecidableEq, Repr

/-- Model of a Python `dict` (string keys, insertion-ordered). -/
abbrev Dict := List (String × Value)

/-- Model of the Python exceptions the merge engine can raise. -/
inductive PyErr where
  | keyError (k : String)
  | valueError (s : String)
  | typeError
deriving DecidableEq, Repr

/-- Model of `d.get(k)` / `k in d`: the binding of the first (and in a real
`dict`, only) occurrence of key `k`. -/
def dictGet (d : Dict) (k : String) : Option Value :=
  (d.find? (fun p => p.1 == k)).map (fun p => p.2)

/-- Model of `k in d`. -/
def hasKey (d : Dict) (k : String) : Bool :=
  d.any (fun p => p.1 == k)

/-- Model of `d[k] = v`: replace the value in place when the key exists
(keeping its position, as a Python `dict` does), else append the new binding. -/
def dictSet (d : Dict) (k : String) (v : Value) : Dict :=
  if d.any (fun p => p.1 == k) then
    d.map (fun p => if p.1 == k then (k, v) else p)
  else d ++ [(k, v)]

/-- Model of `d[k]` in lookup position: `KeyError` when the key is absent. -/
def dictGetE (d : Dict) (k : String) : Except PyErr Value :=
  match dictGet d k with
  | some v => .ok v
  | none => .error (.keyError k)

/-- Well-formedness of a `Dict` as the image of a real Python `dict`:
no duplicate keys. -/
def WFDict (d : Dict) : Prop := (d.map Prod.fst).Nodup

instance (d : Dict) : Decidable (WFDict d) := by
  unfold WFDict; infer_instance

/-- Effectful map over a list, modelling a Python loop that appends
`f x` for each element and lets exceptions propagate. -/
def mapME (f : α → Except ε β) : List α → Except ε (List β)
  | [] => .ok []
  | x :: xs =>
    match f x with
    | .error e => .error e
    | .ok y =>
      match mapME f xs with
      | .error e => .error e
      | .ok ys => .ok (y :: ys)

/-- Effectful filter over a list, modelling a Python list comprehension whose
predicate may raise; elements are tested in order and the first exception
propagates. -/
def filterME (p : α → Except ε Bool) : List α → Except ε (List α)
  | [] => .ok []
  | x :: xs =>
    match p x with
    | .error e => .error e
    | .ok b =>
      match filterME p xs with
      | .error e => .error e
      | .ok rest => .ok (if b then x :: rest else rest)

/-! ### `user_updater.py` -/

/-- Embedding of `apply_update_to_user` (user_updater.py lines 112-143):
start from a copy of `user` and, for each binding of `update` in order,
overwrite/add the field unless it is the `"user_id"` key field.  The Python
function mutates only the fresh copy, so it is a pure function of its
arguments. -/
def apply_update_to_user (user update : Dict) : Dict :=
  update.foldl
    (fun acc kv => if kv.1 == "user_id" then acc else dictSet acc kv.1 kv.2)
    user

/-- Embedding of `find_user_by_id` (user_updater.py lines 83-109): first
record whose `user_id` field equals the given value; `user['user_id']` can
raise `KeyError`. -/
def find_user_by_id (users : List Dict) (user_id : Value) :
    Except PyErr (Option Dict) :=
  match users with
  | [] => .ok none
  | u :: rest =>
    match dictGetE u "user_id" with
    | .error e => .error e
    | .ok uid =>
      if uid = user_id then .ok (some u) else find_user_by_id rest user_id

/-- Embedding of the comprehension predicate
`update['user_id'] == user['user_id']` of `apply_batch_updates`
(user_updater.py line 181); the update's key is looked up first, as Python
evaluates the left operand first. -/
def matchesUser (user upd : Dict) : Except PyErr Bool :=
  match dictGetE upd "user_id" with
  | .error e => .error e
  | .ok uid =>
    match dictGetE user "user_id" with
    | .error e => .error e
    | .ok yid => .ok (decide (uid = yid))

/-- Embedding of one iteration of the loop of `apply_batch_updates`
(user_updater.py lines 179-191): collect the updates matching this user, and
either keep the user as is or fold all its updates over a copy of it. -/
def userStep (updates : List Dict) (user : Dict) : Except PyErr Dict :=
  match filterME (matchesUser user) updates with
  | .error e => .error e
  | .ok user_updates =>
    if user_updates.isEmpty then .ok user
    else .ok (user_updates.foldl apply_update_to_user user)

/-- Embedding of `apply_batch_updates` (user_updater.py lines 146-193). -/
def apply_batch_updates (users updates : List Dict) :
    Except PyErr (List Dict) :=
  mapME (userStep updates) users

/-! ### Dates (`contract_updater.py`) -/

/-- Model of a `datetime.date`. -/
structure Date where
  year : Nat
  month : Nat
  day : Nat
deriving DecidableEq, Repr

/-- Gregorian leap-year rule used by `datetime`. -/
def isLeapYear (y : Nat) : Bool :=
  y % 4 == 0 && (y % 100 != 0 || y % 400 == 0)

/-- Number of days of month `m` of year `y` (as `datetime` validates it). -/
def daysInMonth (y m : Nat) : Nat :=
  if m = 2 then (if isLeapYear y then 29 else 28)
  else if m = 4 ∨ m = 6 ∨ m = 9 ∨ m = 11 then 30
  else 31

/-- ASCII digit test. -/
def isDigitChar (c : Char) : Bool := 48 ≤ c.toNat && c.toNat ≤ 57

/-- Numeric value of a string of decimal digits. -/
def natOfDigits (cs : List Char) : Nat :=
  cs.foldl (fun n c => 10 * n + (c.toNat - 48)) 0

/-- Model of Python `s.split('-')` on the character sequence of `s`. -/
def splitOnDash : List Char → List (List Char)
  | [] => [[]]
  | c :: rest =>
    let r := splitOnDash rest
    if c = '-' then [] :: r
    else
      match r with
      | [] => [[c]]
      | h :: t => (c :: h) :: t

/-- Embedding of `parse_date` (contract_updater.py lines 78-102), i.e. of
`datetime.strptime(date_string, "%Y-%m-%d")`.  For this anchored format the
CPython `_strptime` regex (`\d\d\d\d`, `-`, `1[0-2]|0[1-9]|[1-9]`, `-`,
`3[01]|[12]\d|0[1-9]|[1-9]`, end of input) matches exactly when the string
splits on `'-'` into three all-digit groups: a 4-digit year, a 1-2 digit
month with value 1..12 and a 1-2 digit day with value 1..31; the
`datetime(y, m, d)` constructor then requires `y >= 1` (MINYEAR) and the day
to exist in the month.  Any failure raises `ValueError` carrying the
offending string. -/
def parse_date (s : String) : Except PyErr Date :=
  match splitOnDash s.toList with
  | [ys, ms, ds] =>
    if ys.length = 4 ∧ ys.all isDigitChar ∧
       1 ≤ ms.length ∧ ms.length ≤ 2 ∧ ms.all isDigitChar ∧
       1 ≤ ds.length ∧ ds.length ≤ 2 ∧ ds.all isDigitChar then
      let y := natOfDigits ys
      let m := natOfDigits ms
      let d := natOfDigits ds
      if 1 ≤ y ∧ 1 ≤ m ∧ m ≤ 12 ∧ 1 ≤ d ∧ d ≤ daysInMonth y m then
        .ok ⟨y, m, d⟩
      else .error (.valueError s)
    else .error (.valueError s)
  | _ => .error (.valueError s)

/-- Day number of a date counted from 0000-03-01 (civil-calendar day count),
used to give meaning to Python's `(date1 - date2).days`. -/
def daysFromCivil (dt : Date) : Nat :=
  let y := if dt.month ≤ 2 then dt.year - 1 else dt.year
  let era := y / 400
  let yoe := y % 400
  let mp := if dt.month ≤ 2 then dt.month + 9 else dt.month - 3
  let doy := (153 * mp + 2) / 5 + dt.day - 1
  let doe := yoe * 365 + yoe / 4 - yoe / 100 + doy
  era * 146097 + doe

/-- Model of `(a - b).days` on `datetime.date` values. -/
def dayDiff (a b : Date) : Int :=
  (daysFromCivil a : Int) - (daysFromCivil b : Int)

/-- Embedding of `is_expiring_soon` (contract_updater.py lines 105-133):
parse the expiry string (letting `ValueError` propagate) and test
`0 <= (expiry - today).days <= days_threshold`.  The call
`datetime.now().date()` is modelled by the explicit `today` parameter. -/
def is_expiring_soon (expiry_date : String) (days_threshold : Int)
    (today : Date) : Except PyErr Bool :=
  match parse_date expiry_date with
  | .error e => .error e
  | .ok dt =>
    .ok (decide (0 ≤ dayDiff dt today ∧ dayDiff dt today ≤ days_threshold))

/-! ### `update_contract_statuses` -/

/-- Embedding of one iteration of the loop of `update_contract_statuses`
(contract_updater.py lines 167-172): read `contract['status']` (KeyError
when absent); when it equals `"active"`, read `contract['expiry_date']` and
evaluate `is_expiring_soon` with the default threshold 30 (short-circuit
`and`, so the date is touched only for active records); when the guard
holds, the status field is set to `"expiring_soon"`.  The resulting value is
both the record appended to the output list and — because line 169 assigns
through the alias held by the caller's list — the post-call value of the
input record. -/
def stepContract (today : Date) (contract : Dict) : Except PyErr Dict :=
  match dictGetE contract "status" with
  | .error e => .error e
  | .ok st =>
    if st = Value.str "active" then
      match dictGetE contract "expiry_date" with
      | .error e => .error e
      | .ok (Value.str ex) =>
        (match is_expiring_soon ex 30 today with
         | .error err => .error err
         | .ok true => .ok (dictSet contract "status" (Value.str "expiring_soon"))
         | .ok false => .ok contract)
      | .ok _ => .error .typeError
    else .ok contract

/-- Embedding of `update_contract_statuses` (contract_updater.py lines
136-173): the returned output list. -/
def update_contract_statuses (today : Date) (contracts : List Dict) :
    Except PyErr (List Dict) :=
  mapME (stepContract today) contracts

/-- Post-call contents of the caller's input list when
`update_contract_statuses` returns normally.  Line 169
(`contract['status'] = "expiring_soon"`) writes through the very record
object held by the input list, and line 172 appends that same object to the
output (the copy made on line 170 is discarded), so after a successful call
the input list's records hold exactly the values of the output list. -/
def contracts_after_call (today : Date) (contracts : List Dict) :
    Except PyErr (List Dict) :=
  mapME (stepContract today) contracts

/-! ### Pure characterization used to state the merge contract -/

/-- Pure form of the matching predicate of `apply_batch_updates`: the
update's `user_id` value equals the user's. -/
def matchKey (user upd : Dict) : Bool :=
  decide (dictGet upd "user_id" = dictGet user "user_id")

/-- Pure form of one iteration of `apply_batch_updates` when no `KeyError`
can occur: keep the user when no update matches, else fold the matching
updates over it in Update-Set order. -/
def pureUserMerge (updates : List Dict) (user : Dict) : Dict :=
  let us := updates.filter (matchKey user)
  if us.isEmpty then user else us.foldl apply_update_to_user user

/-- Pure form of `apply_batch_updates` when no `KeyError` can occur. -/
def pureBatch (users updates : List Dict) : List Dict :=
  users.map (pureUserMerge updates)

instance {ε α : Type} [DecidableEq ε] [DecidableEq α] :
    DecidableEq (Except ε α) := fun x y =>
  match x, y with
  | .ok a, .ok b => decidable_of_iff (a = b) (by simp)
  | .error e, .error f => decidable_of_iff (e = f) (by simp)
  | .ok _, .error _ => isFalse (fun h => Except.noConfusion h)
  | .error _, .ok _ => isFalse (fun h => Except.noConfusion h)

/-! ### Helper lemmas: effectful map and filter -/

theorem mapME_ok_length {α β ε : Type} {f : α → Except ε β} {l : List α}
    {out : List β} (h : mapME f l = .ok out) : out.length = l.length := by
  induction l generalizing out with
  | nil =>
    simp only [mapME] at h
    cases h
    rfl
  | cons x xs ih =>
    simp only [mapME] at h
    split at h
    · exact absurd h (by simp)
    · split at h
      · exact absurd h (by simp)
      · cases h
        simp [ih (by assumption)]

theorem mapME_ok_get {α β ε : Type} {f : α → Except ε β} {l : List α}
    {out : List β} (h : mapME f l = .ok out) :
    ∀ j (hj : j < l.length) (hj' : j < out.length),
      f (l.get ⟨j, hj⟩) = .ok (out.get ⟨j, hj'⟩) := by
  induction l generalizing out with
  | nil =>
    intro j hj
    exact absurd hj (by simp)
  | cons x xs ih =>
    simp only [mapME] at h
    split at h
    · exact absurd h (by simp)
    · split at h
      · exact absurd h (by simp)
      · cases h
        intro j hj hj'
        match j with
        | 0 =>
          simpa using (by assumption : f x = .ok _)
        | Nat.succ i =>
          exact ih (by assumption) i (Nat.lt_of_succ_lt_succ hj)
            (Nat.lt_of_succ_lt_succ hj')

theorem mapME_eq_map {α β ε : Type} {f : α → Except ε β} {g : α → β}
    {l : List α} (h : ∀ x ∈ l, f x = .ok (g x)) :
    mapME f l = .ok (l.map g) := by
  induction l with
  | nil => rfl
  | cons x xs ih =>
    simp only [mapME, h x (by simp), ih (fun a ha => h a (by simp [ha])),
      List.map]

theorem mapME_error_at {α β ε : Type} {f : α → Except ε β} {e : ε}
    {l : List α} {j : Nat} (hj : j < l.length)
    (hpre : ∀ i (hi : i < j), ∃ y, f (l.get ⟨i, Nat.lt_trans hi hj⟩) = .ok y)
    (herr : f (l.get ⟨j, hj⟩) = .error e) : mapME f l = .error e := by
  induction l generalizing j with
  | nil => exact absurd hj (by simp)
  | cons x xs ih =>
    match j with
    | 0 =>
      simp only [mapME]
      rw [show (x :: xs).get ⟨0, hj⟩ = x from rfl] at herr
      rw [herr]
    | Nat.succ i =>
      obtain ⟨y, hy⟩ := hpre 0 (Nat.succ_pos i)
      rw [show (x :: xs).get ⟨0, _⟩ = x from rfl] at hy
      simp only [mapME, hy]
      rw [ih (Nat.lt_of_succ_lt_succ hj)
        (fun i' hi' => hpre (i' + 1) (Nat.succ_lt_succ hi'))
        herr]

theorem filterME_eq_filter {α ε : Type} {p : α → Except ε Bool}
    {q : α → Bool} {l : List α} (h : ∀ x ∈ l, p x = .ok (q x)) :
    filterME p l = .ok (l.filter q) := by
  induction l with
  | nil => rfl
  | cons x xs ih =>
    simp only [filterME, h x (by simp), ih (fun a ha => h a (by simp [ha])),
      List.filter]
    cases hq : q x <;> simp

theorem filterME_drop {α ε : Type} {p : α → Except ε Bool} {x : α}
    (hx : p x = .ok false) :
    ∀ l1 l2 : List α, filterME p (l1 ++ x :: l2) = filterME p (l1 ++ l2) := by
  intro l1 l2
  induction l1 with
  | nil =>
    simp only [List.nil_append, filterME, hx]
    cases h2 : filterME p l2 <;> simp
  | cons a l1 ih =>
    simp only [List.cons_append, filterME, List.append_eq, ih]

/-! ### Helper lemmas: dictionaries -/

theorem dictGet_nil {k : String} : dictGet [] k = none := rfl

theorem dictGet_cons_pos {p : String × Value} {ps : Dict} {k : String}
    (h : p.1 = k) : dictGet (p :: ps) k = some p.2 := by
  unfold dictGet
  rw [List.find?_cons_of_pos]
  · rfl
  · simp [h]

theorem dictGet_cons_neg {p : String × Value} {ps : Dict} {k : String}
    (h : ¬ p.1 = k) : dictGet (p :: ps) k = dictGet ps k := by
  unfold dictGet
  rw [List.find?_cons_of_neg]
  simp [h]

theorem dictGet_map_set_self {d : Dict} {k : String} {v : Value}
    (hany : d.any (fun p => p.1 == k) = true) :
    dictGet (d.map (fun p => if p.1 == k then (k, v) else p)) k = some v := by
  induction d with
  | nil => simp at hany
  | cons p ps ih =>
    rw [List.map_cons]
    by_cases hp : p.1 = k
    · rw [show (if p.1 == k then (k, v) else p) = (k, v) by simp [hp]]
      rw [dictGet_cons_pos rfl]
    · rw [show (if p.1 == k then (k, v) else p) = p by simp [hp]]
      rw [dictGet_cons_neg hp]
      exact ih (by simpa [List.any_cons, hp] using hany)

theorem dictGet_append_single_self {d : Dict} {k : String} {v : Value}
    (hnone : ¬ d.any (fun p => p.1 == k) = true) :
    dictGet (d ++ [(k, v)]) k = some v := by
  induction d with
  | nil => exact dictGet_cons_pos rfl
  | cons p ps ih =>
    have hp : ¬ p.1 = k := by
      intro h
      exact hnone (by simp [List.any_cons, h])
    rw [List.cons_append, dictGet_cons_neg hp]
    exact ih (by intro h; exact hnone (by simp [List.any_cons, h]))

theorem dictGet_dictSet_self (d : Dict) (k : String) (v : Value) :
    dictGet (dictSet d k v) k = some v := by
  unfold dictSet
  split
  · exact dictGet_map_set_self (by assumption)
  · exact dictGet_append_single_self (by assumption)

theorem dictGet_map_set_ne {d : Dict} {k k' : String} {v : Value}
    (hkk : k' ≠ k) :
    dictGet (d.map (fun p => if p.1 == k then (k, v) else p)) k'
      = dictGet d k' := by
  induction d with
  | nil => rfl
  | cons p ps ih =>
    rw [List.map_cons]
    by_cases hp : p.1 = k
    · have h2 : ¬ p.1 = k' := by
        rw [hp]
        intro h
        exact hkk h.symm
      rw [show (if p.1 == k then (k, v) else p) = (k, v) by simp [hp]]
      rw [dictGet_cons_neg (by intro h; exact hkk h.symm)]
      rw [dictGet_cons_neg h2]
      exact ih
    · rw [show (if p.1 == k then (k, v) else p) = p by simp [hp]]
      by_cases hp' : p.1 = k'
      · rw [dictGet_cons_pos hp', dictGet_cons_pos hp']
      · rw [dictGet_cons_neg hp', dictGet_cons_neg hp']
        exact ih

theorem dictGet_append_single_ne {d : Dict} {k k' : String} {v : Value}
    (hkk : k' ≠ k) :
    dictGet (d ++ [(k, v)]) k' = dictGet d k' := by
  induction d with
  | nil =>
    rw [List.nil_append, dictGet_cons_neg (by intro h; exact hkk h.symm)]
  | cons p ps ih =>
    by_cases hp : p.1 = k'
    · rw [List.cons_append, dictGet_cons_pos hp, dictGet_cons_pos hp]
    · rw [List.cons_append, dictGet_cons_neg hp, dictGet_cons_neg hp]
      exact ih

theorem dictGet_dictSet_ne (d : Dict) {k k' : String} (v : Value)
    (hkk : k' ≠ k) : dictGet (dictSet d k v) k' = dictGet d k' := by
  unfold dictSet
  split
  · exact dictGet_map_set_ne hkk
  · exact dictGet_append_single_ne hkk

theorem hasKey_iff_get {d : Dict} {k : String} :
    hasKey d k = true ↔ ∃ v, dictGet d k = some v := by
  induction d with
  | nil => simp [hasKey, dictGet_nil]
  | cons p ps ih =>
    by_cases hp : p.1 = k
    · simp [hasKey, List.any_cons, hp, dictGet_cons_pos hp]
    · rw [dictGet_cons_neg hp] at *
      simpa [hasKey, List.any_cons, hp] using ih

theorem dictGetE_eq_ok {d : Dict} {k : String} {v : Value}
    (h : dictGet d k = some v) : dictGetE d k = .ok v := by
  simp [dictGetE, h]

/-! ### Helper lemmas: applying one update -/

theorem dictGet_eq_none_of_not_mem {d : Dict} {k : String}
    (h : k ∉ d.map Prod.fst) : dictGet d k = none := by
  induction d with
  | nil => rfl
  | cons p ps ih =>
    rw [List.map_cons, List.mem_cons] at h
    push_neg at h
    rw [dictGet_cons_neg (fun he => h.1 he.symm)]
    exact ih h.2

theorem auu_nil (u : Dict) : apply_update_to_user u [] = u := rfl

theorem auu_cons (u : Dict) (kv : String × Value) (rest : Dict) :
    apply_update_to_user u (kv :: rest) =
      apply_update_to_user
        (if kv.1 == "user_id" then u else dictSet u kv.1 kv.2) rest := rfl

theorem auu_get_absent {upd : Dict} {k : String} (h : dictGet upd k = none) :
    ∀ u, dictGet (apply_update_to_user u upd) k = dictGet u k := by
  induction upd with
  | nil => intro u; rfl
  | cons kv rest ih =>
    intro u
    have hk : ¬ kv.1 = k := by
      intro he
      rw [dictGet_cons_pos he] at h
      cases h
    have hrest : dictGet rest k = none := by
      rwa [dictGet_cons_neg hk] at h
    rw [auu_cons, ih hrest]
    by_cases hid : kv.1 = "user_id"
    · simp [hid]
    · rw [if_neg (by simp [hid])]
      exact dictGet_dictSet_ne _ _ (fun he => hk he.symm)

theorem auu_get_key (upd : Dict) :
    ∀ u, dictGet (apply_update_to_user u upd) "user_id"
      = dictGet u "user_id" := by
  induction upd with
  | nil => intro u; rfl
  | cons kv rest ih =>
    intro u
    rw [auu_cons, ih]
    by_cases hid : kv.1 = "user_id"
    · simp [hid]
    · rw [if_neg (by simp [hid])]
      exact dictGet_dictSet_ne _ _ (fun he => hid he.symm)

theorem auu_get_present {upd : Dict} (hwf : WFDict upd) {k : String}
    {v : Value} (hk : ¬ k = "user_id") (h : dictGet upd k = some v) :
    ∀ u, dictGet (apply_update_to_user u upd) k = some v := by
  induction upd with
  | nil => cases h
  | cons kv rest ih =>
    intro u
    have hparts : kv.1 ∉ rest.map Prod.fst ∧ WFDict rest := by
      simpa [WFDict, List.map_cons, List.nodup_cons] using hwf
    rw [auu_cons]
    by_cases hp : kv.1 = k
    · have hv : kv.2 = v := by
        rw [dictGet_cons_pos hp] at h
        exact Option.some.inj h
      have hid : ¬ kv.1 = "user_id" := by
        rw [hp]
        exact hk
      rw [if_neg (by simp [hid])]
      have hnone : dictGet rest k = none := by
        apply dictGet_eq_none_of_not_mem
        rw [← hp]
        exact hparts.1
      rw [auu_get_absent hnone, ← hp, ← hv]
      exact dictGet_dictSet_self u kv.1 kv.2
    · have hrest : dictGet rest k = some v := by
        rwa [dictGet_cons_neg hp] at h
      exact ih hparts.2 hrest _

theorem foldl_auu_key (ms : List Dict) :
    ∀ u, dictGet (ms.foldl apply_update_to_user u) "user_id"
      = dictGet u "user_id" := by
  induction ms with
  | nil => intro u; rfl
  | cons m rest ih =>
    intro u
    rw [List.foldl_cons, ih, auu_get_key]

theorem foldl_auu_absent {ms : List Dict} {k : String}
    (h : ∀ m ∈ ms, dictGet m k = none) :
    ∀ u, dictGet (ms.foldl apply_update_to_user u) k = dictGet u k := by
  induction ms with
  | nil => intro u; rfl
  | cons m rest ih =>
    intro u
    rw [List.foldl_cons, ih (fun m' hm' => h m' (by simp [hm'])),
      auu_get_absent (h m (by simp))]

theorem foldl_auu_override {l1 l2 : List Dict} {m : Dict} (hwf : WFDict m)
    {f : String} {v : Value} (hf : ¬ f = "user_id")
    (hm : dictGet m f = some v) (hl2 : ∀ m' ∈ l2, dictGet m' f = none)
    (u : Dict) :
    dictGet ((l1 ++ m :: l2).foldl apply_update_to_user u) f = some v := by
  rw [List.foldl_append, List.foldl_cons, foldl_auu_absent hl2]
  exact auu_get_present hwf hf hm _

/-! ### Helper lemmas: the user batch loop -/

theorem matchesUser_eq {user upd : Dict} (hu : hasKey user "user_id" = true)
    (hp : hasKey upd "user_id" = true) :
    matchesUser user upd = .ok (matchKey user upd) := by
  obtain ⟨yv, hy⟩ := hasKey_iff_get.mp hu
  obtain ⟨uv, hpv⟩ := hasKey_iff_get.mp hp
  unfold matchesUser matchKey
  rw [dictGetE_eq_ok hpv, dictGetE_eq_ok hy, hpv, hy]
  simp

theorem userStep_eq {user : Dict} {updates : List Dict}
    (hu : hasKey user "user_id" = true)
    (hups : ∀ p ∈ updates, hasKey p "user_id" = true) :
    userStep updates user = .ok (pureUserMerge updates user) := by
  unfold userStep pureUserMerge
  rw [filterME_eq_filter (q := matchKey user)
    (fun x hx => matchesUser_eq hu (hups x hx))]
  by_cases he : (updates.filter (matchKey user)).isEmpty <;> simp [he]

theorem apply_batch_characterization {users updates : List Dict}
    (hus : ∀ u ∈ users, hasKey u "user_id" = true)
    (hups : ∀ p ∈ updates, hasKey p "user_id" = true) :
    apply_batch_updates users updates = .ok (pureBatch users updates) := by
  unfold apply_batch_updates pureBatch
  exact mapME_eq_map (fun u hu => userStep_eq (hus u hu) hups)

theorem userStep_ok_user_id {updates : List Dict} {user out : Dict}
    (h : userStep updates user = .ok out) :
    dictGet out "user_id" = dictGet user "user_id" := by
  unfold userStep at h
  split at h
  · exact absurd h (by simp)
  · split at h
    · cases h
      rfl
    · cases h
      rw [foldl_auu_key]

/-! ### Helper lemmas: the contract loop -/

theorem parse_date_error_shape {s : String} {er : PyErr}
    (h : parse_date s = .error er) : er = .valueError s := by
  unfold parse_date at h
  split at h
  · split at h
    · dsimp only at h
      split at h
      · exact absurd h (by simp)
      · cases h
        rfl
    · cases h
      rfl
  · cases h
    rfl

theorem parse_date_fail {s : String} (h : ∀ dt, ¬ parse_date s = .ok dt) :
    parse_date s = .error (.valueError s) := by
  cases hp : parse_date s with
  | ok dt => exact absurd hp (h dt)
  | error er => rw [parse_date_error_shape hp]

theorem stepContract_not_active {today : Date} {c : Dict} {s : Value}
    (hst : dictGet c "status" = some s) (hs : ¬ s = Value.str "active") :
    stepContract today c = .ok c := by
  unfold stepContract
  rw [dictGetE_eq_ok hst]
  simp [hs]

theorem stepContract_ok_keys {today : Date} {c out : Dict}
    (h : stepContract today c = .ok out) {k : String} (hk : ¬ k = "status") :
    dictGet out k = dictGet c k := by
  unfold stepContract at h
  split at h
  · exact absurd h (by simp)
  · split at h
    · split at h
      · exact absurd h (by simp)
      · split at h
        · exact absurd h (by simp)
        · cases h
          exact dictGet_dictSet_ne _ _ hk
        · cases h
          rfl
      · exact absurd h (by simp)
    · cases h
      rfl

theorem stepContract_total {today : Date} {c : Dict} {s : Value}
    (hst : dictGet c "status" = some s)
    (hactive : s = Value.str "active" →
      ∃ e dt, dictGet c "expiry_date" = some (Value.str e) ∧
        parse_date e = .ok dt) :
    ∃ out, stepContract today c = .ok out := by
  unfold stepContract
  rw [dictGetE_eq_ok hst]
  dsimp only
  by_cases hs : s = Value.str "active"
  · obtain ⟨e, dt, hee, hpd⟩ := hactive hs
    rw [if_pos hs, dictGetE_eq_ok hee]
    dsimp only
    unfold is_expiring_soon
    rw [hpd]
    by_cases hb : (0 ≤ dayDiff dt today ∧ dayDiff dt today ≤ 30)
    · exact ⟨dictSet c "status" (Value.str "expiring_soon"), by simp [hb]⟩
    · exact ⟨c, by simp [hb]⟩
  · exact ⟨c, by simp [hs]⟩

theorem stepContract_active_badDate {today : Date} {c : Dict} {e : String}
    (hst : dictGet c "status" = some (Value.str "active"))
    (hex : dictGet c "expiry_date" = some (Value.str e))
    (hbad : ∀ dt, ¬ parse_date e = .ok dt) :
    stepContract today c = .error (.valueError e) := by
  have herr := parse_date_fail hbad
  unfold stepContract
  rw [dictGetE_eq_ok hst]
  dsimp only
  rw [if_pos rfl, dictGetE_eq_ok hex]
  dsimp only
  unfold is_expiring_soon
  rw [herr]

theorem mapME_ok_of_forall {α β ε : Type} {f : α → Except ε β}
    {l : List α} (h : ∀ x ∈ l, ∃ y, f x = .ok y) :
    ∃ out, mapME f l = .ok out := by
  induction l with
  | nil => exact ⟨[], rfl⟩
  | cons x xs ih =>
    obtain ⟨y, hy⟩ := h x (by simp)
    obtain ⟨ys, hys⟩ := ih (fun a ha => h a (by simp [ha]))
    exact ⟨y :: ys, by simp [mapME, hy, hys]⟩

theorem mapME_congr {α β ε : Type} {f g : α → Except ε β} {l : List α}
    (h : ∀ x ∈ l, f x = g x) : mapME f l = mapME g l := by
  induction l with
  | nil => rfl
  | cons x xs ih =>
    simp only [mapME, h x (by simp), ih (fun a ha => h a (by simp [ha]))]

theorem map_get_eq {α β : Type} {f : α → β} :
    ∀ {l1 l2 : List α}, l1.length = l2.length →
    (∀ j (h1 : j < l1.length) (h2 : j < l2.length),
      f (l1.get ⟨j, h1⟩) = f (l2.get ⟨j, h2⟩)) →
    l1.map f = l2.map f := by
  intro l1
  induction l1 with
  | nil =>
    intro l2 hlen _
    cases l2 with
    | nil => rfl
    | cons y ys => cases hlen
  | cons x xs ih =>
    intro l2 hlen h
    cases l2 with
    | nil => cases hlen
    | cons y ys =>
      rw [List.map_cons, List.map_cons]
      rw [show f x = f y from h 0 (by simp) (by simp)]
      rw [ih (by simpa using hlen)
        (fun j h1 h2 => h (j + 1) (by simpa using h1) (by simpa using h2))]

/-! ### Claims -/

/-- C3: for every record and update, `apply_update_to_user` returns a record
in which every non-key field present in the update takes the update's value
(fields absent from the record are added), every field absent from the
update keeps its original value, and the `user_id` key field keeps the
original record's value even when the update carries a different value for
it.  (The Python function writes only to `user.copy()`, so the input record
is unchanged after the call; it is embedded as a pure function.) -/
theorem C3_field_merge (u upd : Dict) (hwf : WFDict upd) :
    dictGet (apply_update_to_user u upd) "user_id" = dictGet u "user_id" ∧
    (∀ k v, ¬ k = "user_id" → dictGet upd k = some v →
      dictGet (apply_update_to_user u upd) k = some v) ∧
    (∀ k, dictGet upd k = none →
      dictGet (apply_update_to_user u upd) k = dictGet u k) :=
  ⟨auu_get_key upd u,
   fun _ _ hk h => auu_get_present hwf hk h u,
   fun _ h => auu_get_absent h u⟩

/-- Witness for C3 on the spec's own example: record
`{user_id: U1, name: Alice, role: member}` merged with update
`{user_id: U1, role: admin, dept: Eng}` keeps `name`, overwrites `role`,
adds `dept`, keeps the key, and equals the record the spec displays. -/
theorem C3_field_merge_witness :
    dictGet (apply_update_to_user
        [("user_id", Value.str "U1"), ("name", Value.str "Alice"),
          ("role", Value.str "member")]
        [("user_id", Value.str "U1"), ("role", Value.str "admin"),
          ("dept", Value.str "Eng")]) "role" = some (Value.str "admin") ∧
    dictGet (apply_update_to_user
        [("user_id", Value.str "U1"), ("name", Value.str "Alice"),
          ("role", Value.str "member")]
        [("user_id", Value.str "U1"), ("role", Value.str "admin"),
          ("dept", Value.str "Eng")]) "dept" = some (Value.str "Eng") ∧
    dictGet (apply_update_to_user
        [("user_id", Value.str "U1"), ("name", Value.str "Alice"),
          ("role", Value.str "member")]
        [("user_id", Value.str "U1"), ("role", Value.str "admin"),
          ("dept", Value.str "Eng")]) "name" = some (Value.str "Alice") ∧
    dictGet (apply_update_to_user
        [("user_id", Value.str "U1"), ("name", Value.str "Alice"),
          ("role", Value.str "member")]
        [("user_id", Value.str "U1"), ("role", Value.str "admin"),
          ("dept", Value.str "Eng")]) "user_id" = some (Value.str "U1") ∧
    apply_update_to_user
        [("user_id", Value.str "U1"), ("name", Value.str "Alice"),
          ("role", Value.str "member")]
        [("user_id", Value.str "U1"), ("role", Value.str "admin"),
          ("dept", Value.str "Eng")] =
      [("user_id", Value.str "U1"), ("name", Value.str "Alice"),
        ("role", Value.str "admin"), ("dept", Value.str "Eng")] := by
  have h := C3_field_merge
    [("user_id", Value.str "U1"), ("name", Value.str "Alice"),
      ("role", Value.str "member")]
    [("user_id", Value.str "U1"), ("role", Value.str "admin"),
      ("dept", Value.str "Eng")] (by decide)
  refine ⟨h.2.1 "role" (Value.str "admin") (by decide) (by decide),
    h.2.1 "dept" (Value.str "Eng") (by decide) (by decide),
    h.2.2 "name" (by decide), h.1.trans (by decide), by decide⟩

/-- C2: a successful merge never drops or duplicates a record: the output of
`apply_batch_updates` has the length of the input Record Store and the same
`user_id` sequence in the same order, and the output of
`update_contract_statuses` has the length of its input with the
`contract_id` sequence preserved in order. -/
theorem C2_order_preservation :
    (∀ users updates out,
      apply_batch_updates users updates = .ok out →
      out.length = users.length ∧
      out.map (fun u => dictGet u "user_id")
        = users.map (fun u => dictGet u "user_id")) ∧
    (∀ today contracts out,
      update_contract_statuses today contracts = .ok out →
      out.length = contracts.length ∧
      out.map (fun c => dictGet c "contract_id")
        = contracts.map (fun c => dictGet c "contract_id")) := by
  constructor
  · intro users updates out h
    have hlen := mapME_ok_length h
    refine ⟨hlen, map_get_eq hlen ?_⟩
    intro j h1 h2
    exact userStep_ok_user_id (mapME_ok_get h j h2 h1)
  · intro today contracts out h
    have hlen := mapME_ok_length h
    refine ⟨hlen, map_get_eq hlen ?_⟩
    intro j h1 h2
    exact stepContract_ok_keys (mapME_ok_get h j h2 h1) (by decide)

/-- Witness for C2 on a concrete store: one updated user, one untouched
user, and a two-contract run. -/
theorem C2_order_preservation_witness :
    ([[("user_id", Value.str "U1"), ("role", Value.str "admin")],
      [("user_id", Value.str "U2"), ("role", Value.str "member")]] :
        List Dict).length = 2 ∧
    ([[("user_id", Value.str "U1"), ("role", Value.str "admin")],
      [("user_id", Value.str "U2"), ("role", Value.str "member")]] :
        List Dict).map (fun u => dictGet u "user_id")
      = ([[("user_id", Value.str "U1"), ("role", Value.str "member")],
          [("user_id", Value.str "U2"), ("role", Value.str "member")]] :
            List Dict).map (fun u => dictGet u "user_id") := by
  have h := (C2_order_preservation.1
    [[("user_id", Value.str "U1"), ("role", Value.str "member")],
      [("user_id", Value.str "U2"), ("role", Value.str "member")]]
    [[("user_id", Value.str "U1"), ("role", Value.str "admin")]]
    [[("user_id", Value.str "U1"), ("role", Value.str "admin")],
      [("user_id", Value.str "U2"), ("role", Value.str "member")]] (by rfl))
  exact ⟨h.1, h.2⟩

/-- C4: updates sharing a key are applied to the matching record in the
order they appear in the Update Set, later ones overriding earlier ones
field-by-field: whenever the updates matching record `j` split as
`l1 ++ m :: l2` where `m` carries field `f` and no later matching update
does, the output record `j` carries `m`'s value for `f`. -/
theorem C4_updates_apply_in_order (users updates : List Dict) (j : Nat)
    (hj : j < users.length) (f : String) (v : Value) (l1 l2 : List Dict)
    (m : Dict)
    (hus : ∀ u ∈ users, hasKey u "user_id" = true)
    (hups : ∀ p ∈ updates, hasKey p "user_id" = true)
    (hsplit : updates.filter (matchKey (users.get ⟨j, hj⟩)) = l1 ++ m :: l2)
    (hf : ¬ f = "user_id") (hwfm : WFDict m) (hmv : dictGet m f = some v)
    (hl2 : ∀ p ∈ l2, dictGet p f = none) :
    ∃ out, apply_batch_updates users updates = .ok out ∧
      ∃ hj2 : j < out.length, dictGet (out.get ⟨j, hj2⟩) f = some v := by
  refine ⟨pureBatch users updates, apply_batch_characterization hus hups, ?_⟩
  have hj2 : j < (pureBatch users updates).length := by
    simpa [pureBatch] using hj
  refine ⟨hj2, ?_⟩
  have hget : (pureBatch users updates).get ⟨j, hj2⟩
      = pureUserMerge updates (users.get ⟨j, hj⟩) := by
    simp [pureBatch]
  rw [hget]
  unfold pureUserMerge
  dsimp only
  rw [hsplit, if_neg (by simp)]
  exact foldl_auu_override hwfm hf hmv hl2 _

/-- Witness for C4 on the spec's own example: updates
`[{user_id: U1, role: admin}, {user_id: U1, role: manager}]` against record
`{user_id: U1, role: member}` yield a final role of `manager`. -/
theorem C4_updates_apply_in_order_witness :
    ∃ out, apply_batch_updates
        [[("user_id", Value.str "U1"), ("role", Value.str "member")]]
        [[("user_id", Value.str "U1"), ("role", Value.str "admin")],
          [("user_id", Value.str "U1"), ("role", Value.str "manager")]]
      = .ok out ∧
      ∃ hj2 : 0 < out.length,
        dictGet (out.get ⟨0, hj2⟩) "role" = some (Value.str "manager") :=
  C4_updates_apply_in_order
    [[("user_id", Value.str "U1"), ("role", Value.str "member")]]
    [[("user_id", Value.str "U1"), ("role", Value.str "admin")],
      [("user_id", Value.str "U1"), ("role", Value.str "manager")]]
    0 (by decide) "role" (Value.str "manager")
    [[("user_id", Value.str "U1"), ("role", Value.str "admin")]] []
    [("user_id", Value.str "U1"), ("role", Value.str "manager")]
    (by decide) (by decide) (by rfl) (by decide) (by decide) (by decide)
    (by intro p hp; cases hp)

/-- C5: an update whose `user_id` matches no record of the store is silently
dropped: removing it from the Update Set leaves the result of
`apply_batch_updates` (including its error behaviour) unchanged, so every
record appears in the output exactly as it would were that update absent. -/
theorem C5_unmatched_update_dropped (users l1 l2 : List Dict) (upd : Dict)
    (uid : Value)
    (hus : ∀ u ∈ users, hasKey u "user_id" = true)
    (hupd : dictGet upd "user_id" = some uid)
    (hnomatch : ∀ u ∈ users, ¬ dictGet u "user_id" = some uid) :
    apply_batch_updates users (l1 ++ upd :: l2)
      = apply_batch_updates users (l1 ++ l2) := by
  unfold apply_batch_updates
  apply mapME_congr
  intro user huser
  obtain ⟨yv, hy⟩ := hasKey_iff_get.mp (hus user huser)
  have hfalse : matchesUser user upd = .ok false := by
    unfold matchesUser
    rw [dictGetE_eq_ok hupd, dictGetE_eq_ok hy]
    dsimp only
    rw [decide_eq_false]
    intro he
    exact hnomatch user huser (he ▸ hy)
  unfold userStep
  rw [filterME_drop hfalse l1 l2]

/-- Witness for C5: a single update targeting the absent key `U99` leaves
the one-record store's merge identical to the empty-update merge. -/
theorem C5_unmatched_update_dropped_witness :
    apply_batch_updates [[("user_id", Value.str "U1")]]
        ([] ++ [("user_id", Value.str "U99")] :: [])
      = apply_batch_updates [[("user_id", Value.str "U1")]] ([] ++ []) :=
  C5_unmatched_update_dropped [[("user_id", Value.str "U1")]] [] []
    [("user_id", Value.str "U99")] (Value.str "U99")
    (by decide) (by decide) (by decide)

/-- C9: `apply_batch_updates` is total when every record and every update
carries the `user_id` field, and a single update lacking that field makes
the call raise `KeyError('user_id')` rather than skip the entry, even
though the update matches no record. -/
theorem C9_missing_key_raises :
    (∀ users updates : List Dict,
      (∀ u ∈ users, hasKey u "user_id" = true) →
      (∀ p ∈ updates, hasKey p "user_id" = true) →
      ∃ out, apply_batch_updates users updates = .ok out) ∧
    apply_batch_updates [[("user_id", Value.str "U1")]]
        [[("role", Value.str "admin")]]
      = .error (.keyError "user_id") := by
  constructor
  · intro users updates hus hups
    exact ⟨pureBatch users updates, apply_batch_characterization hus hups⟩
  · rfl

/-- Witness for C9: the totality half instantiated at a store and update
set that both carry `user_id` everywhere. -/
theorem C9_missing_key_raises_witness :
    ∃ out, apply_batch_updates [[("user_id", Value.str "U1")]]
        [[("user_id", Value.str "U2"), ("role", Value.str "admin")]]
      = .ok out :=
  C9_missing_key_raises.1 [[("user_id", Value.str "U1")]]
    [[("user_id", Value.str "U2"), ("role", Value.str "admin")]]
    (by decide) (by decide)

/-- C6: for every date string that parses and every threshold `t`,
`is_expiring_soon` returns true exactly when
`0 <= (parsed date - today) in days <= t`. -/
theorem C6_expiry_window (d : String) (t : Int) (today dt : Date)
    (h : parse_date d = .ok dt) :
    is_expiring_soon d t today
      = .ok (decide (0 ≤ dayDiff dt today ∧ dayDiff dt today ≤ t)) := by
  unfold is_expiring_soon
  rw [h]

/-- Witness for C6 with today = 2025-01-15 and the default threshold 30:
an expiry 30 days out (2025-02-14) gives true, 31 days out gives false,
today itself gives true, and yesterday gives false. -/
theorem C6_expiry_window_witness :
    is_expiring_soon "2025-02-14" 30 ⟨2025, 1, 15⟩ = .ok true ∧
    is_expiring_soon "2025-02-15" 30 ⟨2025, 1, 15⟩ = .ok false ∧
    is_expiring_soon "2025-01-15" 30 ⟨2025, 1, 15⟩ = .ok true ∧
    is_expiring_soon "2025-01-14" 30 ⟨2025, 1, 15⟩ = .ok false := by
  refine ⟨?_, ?_, ?_, ?_⟩
  · rw [C6_expiry_window "2025-02-14" 30 ⟨2025, 1, 15⟩ ⟨2025, 2, 14⟩ rfl]
    rfl
  · rw [C6_expiry_window "2025-02-15" 30 ⟨2025, 1, 15⟩ ⟨2025, 2, 15⟩ rfl]
    rfl
  · rw [C6_expiry_window "2025-01-15" 30 ⟨2025, 1, 15⟩ ⟨2025, 1, 15⟩ rfl]
    rfl
  · rw [C6_expiry_window "2025-01-14" 30 ⟨2025, 1, 15⟩ ⟨2025, 1, 14⟩ rfl]
    rfl

/-- C7: `update_contract_statuses` rewrites a status only on records whose
current status equals `"active"`: any record with a different status value
appears in the output exactly as it is in the input, whatever its date. -/
theorem C7_status_guard (today : Date) (contracts out : List Dict)
    (h : update_contract_statuses today contracts = .ok out)
    (j : Nat) (hj : j < contracts.length) (s : Value)
    (hst : dictGet (contracts.get ⟨j, hj⟩) "status" = some s)
    (hs : ¬ s = Value.str "active") :
    ∃ hj2 : j < out.length, out.get ⟨j, hj2⟩ = contracts.get ⟨j, hj⟩ := by
  have hlen := mapME_ok_length h
  have hj2 : j < out.length := by
    rw [hlen]
    exact hj
  refine ⟨hj2, ?_⟩
  have hg := mapME_ok_get h j hj hj2
  rw [stepContract_not_active hst hs] at hg
  exact (Except.ok.inj hg).symm

/-- Witness for C7: a `draft` contract expiring within the window passes
through a successful run unchanged. -/
theorem C7_status_guard_witness :
    ∃ hj2 : 0 < ([[("contract_id", Value.str "C3"),
        ("status", Value.str "draft"),
        ("expiry_date", Value.str "2025-01-20")]] : List Dict).length,
      ([[("contract_id", Value.str "C3"), ("status", Value.str "draft"),
        ("expiry_date", Value.str "2025-01-20")]] : List Dict).get ⟨0, hj2⟩
      = ([[("contract_id", Value.str "C3"), ("status", Value.str "draft"),
        ("expiry_date", Value.str "2025-01-20")]] : List Dict).get
          ⟨0, by decide⟩ :=
  C7_status_guard ⟨2025, 1, 15⟩
    [[("contract_id", Value.str "C3"), ("status", Value.str "draft"),
      ("expiry_date", Value.str "2025-01-20")]]
    [[("contract_id", Value.str "C3"), ("status", Value.str "draft"),
      ("expiry_date", Value.str "2025-01-20")]]
    rfl 0 (by decide) (Value.str "draft") rfl (by decide)

/-- C8: a record whose status is `"active"` and whose `expiry_date` string
does not parse makes `update_contract_statuses` fail with the `ValueError`
raised by `parse_date`, naming the offending string: the error propagates
and the call produces no output list (provided the records before it raise
nothing, since the loop stops at the first exception). -/
theorem C8_malformed_date_aborts (today : Date) (contracts : List Dict)
    (j : Nat) (hj : j < contracts.length) (e : String)
    (hpre : ∀ i (hi : i < j),
      ∃ r, stepContract today (contracts.get ⟨i, Nat.lt_trans hi hj⟩) = .ok r)
    (hst : dictGet (contracts.get ⟨j, hj⟩) "status"
      = some (Value.str "active"))
    (hex : dictGet (contracts.get ⟨j, hj⟩) "expiry_date"
      = some (Value.str e))
    (hbad : ∀ dt, ¬ parse_date e = .ok dt) :
    update_contract_statuses today contracts = .error (.valueError e) := by
  unfold update_contract_statuses
  exact mapME_error_at hj hpre (stepContract_active_badDate hst hex hbad)

/-- Witness for C8: a batch of a harmless draft contract followed by an
active contract dated `2025-13-01` aborts with the error naming that
string. -/
theorem C8_malformed_date_aborts_witness :
    update_contract_statuses ⟨2025, 1, 15⟩
        [[("contract_id", Value.str "C1"), ("status", Value.str "draft")],
          [("contract_id", Value.str "C2"), ("status", Value.str "active"),
            ("expiry_date", Value.str "2025-13-01")]]
      = .error (.valueError "2025-13-01") :=
  C8_malformed_date_aborts ⟨2025, 1, 15⟩
    [[("contract_id", Value.str "C1"), ("status", Value.str "draft")],
      [("contract_id", Value.str "C2"), ("status", Value.str "active"),
        ("expiry_date", Value.str "2025-13-01")]]
    1 (by decide) "2025-13-01"
    (by
      intro i hi
      have hi0 : i = 0 := by omega
      subst hi0
      exact ⟨_, rfl⟩)
    rfl rfl
    (by
      intro dt hdt
      rw [show parse_date "2025-13-01"
        = Except.error (PyErr.valueError "2025-13-01") from rfl] at hdt
      exact Except.noConfusion hdt)

/-- C8 as literally stated is false: a contract list can contain a record
whose `expiry_date` does not parse in YYYY-MM-DD form and still make
`update_contract_statuses` return a full output with no error, because the
guard on line 168 short-circuits and never parses dates of records whose
status is not `"active"`.  Here the store holds one `terminated` record
dated `2025/01/15`, a string `parse_date` rejects, and the call succeeds. -/
theorem C8_nonactive_counterexample :
    update_contract_statuses ⟨2025, 1, 15⟩
        [[("contract_id", Value.str "C9"),
          ("status", Value.str "terminated"),
          ("expiry_date", Value.str "2025/01/15")]]
      = .ok [[("contract_id", Value.str "C9"),
          ("status", Value.str "terminated"),
          ("expiry_date", Value.str "2025/01/15")]] ∧
    parse_date "2025/01/15" = .error (.valueError "2025/01/15") :=
  ⟨rfl, rfl⟩

/-- C10: the date predicate is evaluated only for records whose status is
`"active"` (the `and` on line 168 short-circuits): when every record has a
status and every `active` record has a parsable string `expiry_date`, the
whole call succeeds regardless of malformed dates on non-active records,
and those records pass through unchanged; hence the whole-batch date abort
can only be triggered by an `active` record. -/
theorem C10_date_only_for_active (today : Date) (contracts : List Dict)
    (hstat : ∀ c ∈ contracts, ∃ s, dictGet c "status" = some s)
    (hactive : ∀ c ∈ contracts,
      dictGet c "status" = some (Value.str "active") →
      ∃ e dt, dictGet c "expiry_date" = some (Value.str e) ∧
        parse_date e = .ok dt) :
    ∃ out, update_contract_statuses today contracts = .ok out ∧
      ∀ j (hj : j < contracts.length) (hj2 : j < out.length) (s : Value),
        dictGet (contracts.get ⟨j, hj⟩) "status" = some s →
        ¬ s = Value.str "active" →
        out.get ⟨j, hj2⟩ = contracts.get ⟨j, hj⟩ := by
  have htot : ∀ c ∈ contracts, ∃ r, stepContract today c = .ok r := by
    intro c hc
    obtain ⟨s, hs⟩ := hstat c hc
    apply stepContract_total hs
    intro hsa
    exact hactive c hc (hsa ▸ hs)
  obtain ⟨out, hout⟩ := mapME_ok_of_forall htot
  refine ⟨out, hout, ?_⟩
  intro j hj hj2 s hs hna
  have hg := mapME_ok_get hout j hj hj2
  rw [stepContract_not_active hs hna] at hg
  exact (Except.ok.inj hg).symm

/-- Witness for C10: a store whose only record is a `draft` contract with
the unparsable date `oops` runs to completion without error. -/
theorem C10_date_only_for_active_witness :
    ∃ out, update_contract_statuses ⟨2025, 1, 15⟩
        [[("status", Value.str "draft"), ("expiry_date", Value.str "oops")]]
      = .ok out ∧
      ∀ j (hj : j < ([[("status", Value.str "draft"),
          ("expiry_date", Value.str "oops")]] : List Dict).length)
        (hj2 : j < out.length) (s : Value),
        dictGet (([[("status", Value.str "draft"),
          ("expiry_date", Value.str "oops")]] : List Dict).get ⟨j, hj⟩)
          "status" = some s →
        ¬ s = Value.str "active" →
        out.get ⟨j, hj2⟩ = ([[("status", Value.str "draft"),
          ("expiry_date", Value.str "oops")]] : List Dict).get ⟨j, hj⟩ :=
  C10_date_only_for_active ⟨2025, 1, 15⟩
    [[("status", Value.str "draft"), ("expiry_date", Value.str "oops")]]
    (by
      intro c hc
      rw [List.mem_singleton] at hc
      subst hc
      exact ⟨Value.str "draft", rfl⟩)
    (by
      intro c hc h
      rw [List.mem_singleton] at hc
      subst hc
      exact absurd h (by decide))

/-- C1 is refuted on the contract side: line 169 of contract_updater.py
(`contract['status'] = "expiring_soon"`) writes through the record object
held by the caller's input list before the copy on line 170 is made, and
line 172 appends that same mutated object to the output.  At a concrete
input holding one active contract inside the 30-day window, the post-call
value of the input record differs from its pre-call value (its status
changed from `active` to `expiring_soon`), and the output holds that same
mutated record rather than a newly produced one, contradicting the claimed
no-mutation contract. -/
theorem C1_contract_record_mutated :
    contracts_after_call ⟨2025, 1, 15⟩
        [[("contract_id", Value.str "C1"), ("status", Value.str "active"),
          ("expiry_date", Value.str "2025-01-20")]]
      = .ok [[("contract_id", Value.str "C1"),
          ("status", Value.str "expiring_soon"),
          ("expiry_date", Value.str "2025-01-20")]] ∧
    ¬ ([("contract_id", Value.str "C1"),
        ("status", Value.str "expiring_soon"),
        ("expiry_date", Value.str "2025-01-20")] : Dict)
      = [("contract_id", Value.str "C1"), ("status", Value.str "active"),
          ("expiry_date", Value.str "2025-01-20")] :=
  ⟨rfl, by decide⟩

end BatchMerge
